import Mathlib

/-!
Shallow embedding of `photo_organizer.py` (valentjn/photo-organizer).

The program renames photo/video files to `<timestamp>_<hash8><ext>` names.
We model the pure core: the timestamp extractor (`get_creation_datetime`),
the target-name builder (`format_media_path`), the rename planner
(`get_rename_dict`), the rename executor (`rename`) over an explicit
filesystem state, and the media-path collector (`collect_media_paths`).

Modelling conventions:
- Python `bytes` becomes `List Nat`; file names become `List Char`.
- The SHA-256 hex digest (`hashlib.sha256(...).hexdigest()`) is an external
  primitive; it is passed as a function parameter `hexDigest : Bytes → List Char`
  (a real digest is 64 lowercase hex characters, captured by `IsHexDigest`).
- Reading a file's bytes (`Path.read_bytes`) is modelled by a function
  `content : MPath → Bytes`.
- Python exceptions that escape the pure core (`KeyError` from
  `metadata["SourceFile"]`, `ValueError` from the `datetime.datetime`
  constructor) become `Except PyError`.
- Printing to stdout/stderr is not modelled; only control flow is.
-/

deriving instance DecidableEq for Except

namespace PhotoOrganizer

/-- Byte strings: a file's content is a list of byte values. -/
abbrev Bytes := List Nat

/-- A filesystem path, split into the directory part and the final name,
mirroring how `pathlib.PurePath.with_name` and `.suffix` operate only on the
final component. -/
structure MPath where
  dir : String
  name : List Char
deriving DecidableEq

/-- Index of the last occurrence of `c` in `cs` (Python `str.rfind`),
`none` when absent. -/
def rfindChar (c : Char) : List Char → Option Nat
  | [] => none
  | x :: xs =>
    match rfindChar c xs with
    | some i => some (i + 1)
    | none => if x = c then some 0 else none

/-- Python `pathlib.PurePath.suffix` computed on a file name: the part from
the last dot on, provided that dot is neither the first nor the last
character; otherwise the empty string. -/
def suffixOf (name : List Char) : List Char :=
  match rfindChar '.' name with
  | some i => if 0 < i ∧ i < name.length - 1 then name.drop i else []
  | none => []

/-- Python `str.lower`, restricted to the ASCII letters that actually occur
in file suffixes (`Char.toLower` lowercases exactly the basic latin
letters, as `str.lower` does on ASCII input). -/
def lowerChars (cs : List Char) : List Char := cs.map Char.toLower

/-- The suffix of a path is the suffix of its final name component. -/
def MPath.suffix (p : MPath) : List Char := suffixOf p.name

/-- Python `PurePath.with_name`: same directory, new final name. -/
def MPath.withName (p : MPath) (n : List Char) : MPath := ⟨p.dir, n⟩

/-! ### `datetime.datetime` -/

/-- A naive `datetime.datetime` value with second precision, as constructed
at the end of `get_creation_datetime` (no `tzinfo`, microsecond 0). -/
structure DateTime where
  year : Nat
  month : Nat
  day : Nat
  hour : Nat
  minute : Nat
  second : Nat
deriving DecidableEq

/-- Gregorian leap-year rule used by Python's `datetime` module. -/
def isLeapYear (y : Nat) : Bool := y % 4 == 0 && (y % 100 != 0 || y % 400 == 0)

/-- Number of days in a month, as in Python's `datetime` module. -/
def daysInMonth (y m : Nat) : Nat :=
  if m = 2 then (if isLeapYear y then 29 else 28)
  else if m = 4 ∨ m = 6 ∨ m = 9 ∨ m = 11 then 30
  else 31

/-- The argument checks performed by the `datetime.datetime` constructor
(`MINYEAR = 1`, `MAXYEAR = 9999`; arguments here are the nonnegative
integers produced by `int()` on the regex digit groups). -/
def datetimeValid (y mo d h mi s : Nat) : Bool :=
  1 ≤ y && y ≤ 9999 && 1 ≤ mo && mo ≤ 12 && 1 ≤ d && d ≤ daysInMonth y mo &&
  h ≤ 23 && mi ≤ 59 && s ≤ 59

/-- Exceptions that can escape the modelled code: `KeyError` from
`metadata["SourceFile"]`, `ValueError` from the `datetime.datetime`
constructor. -/
inductive PyError
  | keyError
  | valueError
deriving DecidableEq

/-- The `datetime.datetime(year, month, day, hour, minute, second)` call:
returns the value or raises `ValueError` for an invalid calendar date/time. -/
def mkDatetime (y mo d h mi s : Nat) : Except PyError DateTime :=
  if datetimeValid y mo d h mi s then .ok ⟨y, mo, d, h, mi, s⟩
  else .error .valueError

/-! ### The timestamp regex

`get_creation_datetime` matches the chosen metadata value with
`re.fullmatch` against
`(?P<year>\d+):(?P<month>\d+):(?P<day>\d+) (?P<hour>\d+):(?P<minute>\d+):(?P<second>\d+)((?P<timezone_sign>[+-])(?P<timezone_hour>\d+):(?P<timezone_minute>\d+))?`
compiled with `re.ASCII`, so `\d` is exactly `0`-`9`. Each `\d+` group is
followed by a non-digit (or the choice between end-of-string and a sign),
so greedy matching is deterministic and the regex is modelled by the
recursive-descent parser below. -/

/-- Numeric value of a digit group, as computed by Python `int()`. -/
def digitsToNat (ds : List Char) : Nat := ds.foldl (fun a c => 10 * a + (c.toNat - 48)) 0

/-- Match one `\d+` group (with `re.ASCII`, `\d` is `0`-`9`, which is
`Char.isDigit`): the longest nonempty digit run and the rest of the input. -/
def parseDigits1 (cs : List Char) : Option (List Char × List Char) :=
  match cs.takeWhile Char.isDigit with
  | [] => none
  | ds => some (ds, cs.dropWhile Char.isDigit)

/-- Match one literal character. -/
def expectChar (c : Char) : List Char → Option (List Char)
  | [] => none
  | x :: xs => if x = c then some xs else none

/-- Match the optional timezone group `([+-]\d+:\d+)?` followed by the end
of the string (the tail of `re.fullmatch`). -/
def tzMatch (cs : List Char) : Bool :=
  match cs with
  | [] => true
  | sign :: rest =>
    (sign == '+' || sign == '-') &&
    (match parseDigits1 rest with
     | none => false
     | some (_, rest2) =>
       match expectChar ':' rest2 with
       | none => false
       | some rest3 =>
         match parseDigits1 rest3 with
         | none => false
         | some (_, rest4) => rest4.isEmpty)

/-- `re.fullmatch` of the timestamp pattern: on success, the six digit
groups converted by `int()` (the timezone groups are matched but their
values are not returned, exactly as the Python code never reads them). -/
def parseDatetimeString (cs : List Char) : Option (Nat × Nat × Nat × Nat × Nat × Nat) := do
  let (y, r1) ← parseDigits1 cs
  let r2 ← expectChar ':' r1
  let (mo, r3) ← parseDigits1 r2
  let r4 ← expectChar ':' r3
  let (d, r5) ← parseDigits1 r4
  let r6 ← expectChar ' ' r5
  let (h, r7) ← parseDigits1 r6
  let r8 ← expectChar ':' r7
  let (mi, r9) ← parseDigits1 r8
  let r10 ← expectChar ':' r9
  let (s, r11) ← parseDigits1 r10
  if tzMatch r11 then
    some (digitsToNat y, digitsToNat mo, digitsToNat d,
          digitsToNat h, digitsToNat mi, digitsToNat s)
  else none

/-! ### `get_creation_datetime` -/

/-- A metadata record as returned by exiftool: string keys to string
values (Python `dict`; keys are unique, lookup returns the first match). -/
abbrev MetadataRecord := List (String × String)

/-- The field-priority list iterated by the `for metadata_key in [...]`
loop: the primary photo field, then the secondary video field. -/
def timestampKeys : List String := ["EXIF:DateTimeOriginal", "QuickTime:CreationDate"]

/-- Parse a chosen timestamp value: the shared tail of
`get_creation_datetime` after `creation_datetime_string` is bound
(regex fullmatch, then the `datetime.datetime` constructor). -/
def datetimeFromValue (s : String) : Except PyError (Option DateTime) :=
  match parseDatetimeString s.toList with
  | none => .ok none
  | some (y, mo, d, h, mi, sec) =>
    match mkDatetime y mo d h mi sec with
    | .error e => .error e
    | .ok dt => .ok (some dt)

/-- `get_creation_datetime`: reads `metadata["SourceFile"]` (raising
`KeyError` when absent), picks the first present timestamp field, returns
`none` when no field is present or the value does not fully match the
pattern, raises `ValueError` when the matched value is an invalid calendar
date/time. -/
def get_creation_datetime (metadata : MetadataRecord) : Except PyError (Option DateTime) :=
  match metadata.lookup "SourceFile" with
  | none => .error .keyError
  | some _ =>
    match timestampKeys.findSome? (fun k => metadata.lookup k) with
    | none => .ok none
    | some s => datetimeFromValue s

/-! ### `format_media_path` -/

/-- One decimal digit character: `digitChar n` is the character for
`n % 10`. -/
def digitChar (n : Nat) : Char := (String.toList "0123456789").getD (n % 10) '0'

/-- Zero-padded two-digit decimal rendering (`%02d` for values below 100;
every field it is applied to is bounded by `datetimeValid`). -/
def pad2 (n : Nat) : List Char := [digitChar (n / 10), digitChar n]

/-- Zero-padded four-digit decimal rendering (`%04d` for values below
10000; the year is bounded by `datetimeValid`). -/
def pad4 (n : Nat) : List Char :=
  [digitChar (n / 1000), digitChar (n / 100), digitChar (n / 10), digitChar n]

/-- `creation_datetime.replace(tzinfo=None).isoformat(sep="_")` for a naive
second-precision datetime: `YYYY-MM-DD_HH:MM:SS` (the `tzinfo=None`
replacement is the identity here because the constructed datetime is
already naive, and microsecond 0 is omitted by `isoformat`). -/
def isoformatSepUnderscore (dt : DateTime) : List Char :=
  pad4 dt.year ++ '-' :: pad2 dt.month ++ '-' :: pad2 dt.day ++ '_' ::
  pad2 dt.hour ++ ':' :: pad2 dt.minute ++ ':' :: pad2 dt.second

/-- `.replace(":", "-")` on the isoformat output (single-character
replacement is a character map). -/
def replaceColonWithDash (cs : List Char) : List Char :=
  cs.map (fun c => if c = ':' then '-' else c)

/-- `format_media_path`: hash the file's bytes, then build
`old.with_name("{}_{}{}".format(isoformat-with-dashes, hash[:8], suffix.lower()))`.
The SHA-256 hex digest function and the file-reading function are passed
explicitly. -/
def format_media_path (hexDigest : Bytes → List Char) (content : MPath → Bytes)
    (old : MPath) (dt : DateTime) : MPath :=
  let hash_ := hexDigest (content old)
  old.withName (replaceColonWithDash (isoformatSepUnderscore dt) ++
    '_' :: hash_.take 8 ++ lowerChars old.suffix)

/-! ### `get_rename_dict` -/

/-- The planning loop of `get_rename_dict` (the exiftool invocation that
produced the records is an external collaborator; paths and records are
paired positionally as by `zip`). Skips files without a creation datetime,
skips no-op renames, propagates the fatal `ValueError`/`KeyError` from the
extractor, and otherwise collects `(old, new)` pairs in input order. -/
def get_rename_dict (hexDigest : Bytes → List Char) (content : MPath → Bytes) :
    List (MPath × MetadataRecord) → Except PyError (List (MPath × MPath))
  | [] => .ok []
  | (p, m) :: rest =>
    match get_creation_datetime m with
    | .error e => .error e
    | .ok none => get_rename_dict hexDigest content rest
    | .ok (some dt) =>
      let np := format_media_path hexDigest content p dt
      if p = np then get_rename_dict hexDigest content rest
      else
        match get_rename_dict hexDigest content rest with
        | .error e => .error e
        | .ok tail => .ok ((p, np) :: tail)

/-! ### `rename` (the executor) -/

/-- Filesystem state: which regular file (with which bytes) lives at each
path. -/
def FS := MPath → Option Bytes

/-- `Path.unlink`: remove the file at `p`. -/
def FS.unlink (fs : FS) (p : MPath) : FS :=
  fun q => if q = p then none else fs q

/-- `Path.rename`: move the file at `old` to `new`. -/
def FS.moveFile (fs : FS) (old new : MPath) : FS :=
  fun q => if q = new then fs old else if q = old then none else fs q

/-- The `rename` executor: for each plan entry in order, if a file already
exists at the target path delete the source, otherwise move the source to
the target. -/
def rename : List (MPath × MPath) → FS → FS
  | [], fs => fs
  | (oldPath, newPath) :: rest, fs =>
    rename rest (if (fs newPath).isSome then fs.unlink oldPath
                 else fs.moveFile oldPath newPath)

/-! ### `collect_media_paths` -/

/-- A raw path string, as returned by `glob.glob`. -/
abbrev PathStr := List Char

/-- The final component of a path string (what `pathlib.Path(s).name`
yields for the glob results, which name regular files). -/
def pathNamePart (s : PathStr) : PathStr :=
  match rfindChar '/' s with
  | some i => s.drop (i + 1)
  | none => s

/-- The media-extension filter of `collect_media_paths`:
`Path(s).suffix.lower() in {".jpg", ".mov", ".png"}`. -/
def isMediaPath (s : PathStr) : Bool :=
  let suf := lowerChars (suffixOf (pathNamePart s))
  suf == String.toList ".jpg" || suf == String.toList ".mov" ||
    suf == String.toList ".png"

/-- `collect_media_paths`: for each glob pattern in order, sort that
pattern's media matches lexicographically (Python `sorted` on paths
compares path strings; modelled by `insertionSort`, whose output is the
unique sorted arrangement) and append them to the accumulated list.
`glob.glob` is an external collaborator passed as `globFn`. -/
def collect_media_paths (globFn : PathStr → List PathStr) (patterns : List PathStr) :
    List PathStr :=
  patterns.foldl
    (fun acc pat => acc ++ List.insertionSort (· ≤ ·) ((globFn pat).filter isMediaPath))
    []

/-! ### Spec-side definitions (used to state the claims) -/

/-- A lowercase hexadecimal character, as produced by `hexdigest()`. -/
def isLowerHexChar (c : Char) : Bool := c.isDigit || ('a' ≤ c && c ≤ 'f')

/-- What `hashlib.sha256(...).hexdigest()` returns: a string of 64
lowercase hex characters. The digest function is a parameter of the
model; theorems that need its shape assume this predicate. -/
def IsHexDigest (ds : List Char) : Prop :=
  ds.length = 64 ∧ ∀ c ∈ ds, isLowerHexChar c = true

/-- Spec-side stem builder for the (amended) filename-format sentence:
the timestamp rendered `YYYY-MM-DD_HH-MM-SS` (zero-padded, `_` between
date and time, `-` within each part) followed by `_` and the first 8
characters of the content hex digest. -/
def specStem (dt : DateTime) (digest : List Char) : List Char :=
  pad4 dt.year ++ '-' :: pad2 dt.month ++ '-' :: pad2 dt.day ++ '_' ::
  pad2 dt.hour ++ '-' :: pad2 dt.minute ++ '-' :: pad2 dt.second ++
  '_' :: digest.take 8

/-- A nonempty group of ASCII digits (spec: "all digit groups are ASCII
digits only"). -/
def IsDigitGroup (g : List Char) : Prop := g ≠ [] ∧ ∀ c ∈ g, c.isDigit = true

/-- The string `<y>:<mo>:<d> <h>:<mi>:<s><rest>` assembled from six digit
groups and a remainder (the remainder is empty or a timezone offset). -/
def tsShape (y mo d h mi s rest : List Char) : List Char :=
  y ++ (':' :: (mo ++ (':' :: (d ++ (' ' :: (h ++ (':' :: (mi ++ (':' :: (s ++ rest))))))))))

/-- Spec-side timestamp pattern as amended: digit groups of one or more
ASCII digits separated by `:`, `:`, space, `:`, `:`, optionally followed
by a timezone offset `±<digits>:<digits>`, matching the whole string. -/
def LooseTimestampMatch (cs : List Char) : Prop :=
  ∃ y mo d h mi s : List Char,
    IsDigitGroup y ∧ IsDigitGroup mo ∧ IsDigitGroup d ∧ IsDigitGroup h ∧
    IsDigitGroup mi ∧ IsDigitGroup s ∧
    (cs = tsShape y mo d h mi s [] ∨
     ∃ (sign : Char) (th tm : List Char), (sign = '+' ∨ sign = '-') ∧
       IsDigitGroup th ∧ IsDigitGroup tm ∧
       cs = tsShape y mo d h mi s (sign :: (th ++ (':' :: tm))))

/-- Spec-side timestamp pattern as originally claimed, read with fixed
widths: exactly `YYYY:MM:DD HH:MM:SS`, optionally followed by exactly
`±HH:MM`, all digit positions ASCII digits. -/
def specTimestampPattern (cs : List Char) : Bool :=
  let base : List Char → Bool := fun l =>
    match l with
    | [y1, y2, y3, y4, c1, m1, m2, c2, d1, d2, sp, h1, h2, c3, i1, i2, c4, s1, s2] =>
      [y1, y2, y3, y4, m1, m2, d1, d2, h1, h2, i1, i2, s1, s2].all Char.isDigit &&
      c1 == ':' && c2 == ':' && sp == ' ' && c3 == ':' && c4 == ':'
    | _ => false
  base cs ||
    (base (cs.take 19) &&
     match cs.drop 19 with
     | [sg, a, b, cl, e, f] =>
       (sg == '+' || sg == '-') && cl == ':' && [a, b, e, f].all Char.isDigit
     | _ => false)

/-! ### Concrete objects used by witnesses and counterexamples -/

/-- A digest function whose (constant) value is a wellformed hex digest
beginning `a1b2c3d4`. -/
def hexDigest0 : Bytes → List Char :=
  fun _ => String.toList "a1b2c3d4e5f60718293a4b5c6d7e8f90a1b2c3d4e5f60718293a4b5c6d7e8f90"

/-- A digest function that distinguishes empty from nonempty content. -/
def hexDigestAB : Bytes → List Char :=
  fun b => if b = [] then List.replicate 64 'a' else List.replicate 64 'b'

/-- A content map: every file holds the single byte 7. -/
def content7 : MPath → Bytes := fun _ => [7]

/-- An upper-case-suffixed media path. -/
def oldJpg : MPath := ⟨"", String.toList "IMG 1.JPG"⟩

/-- The capture timestamp 2023-05-01 14:30:00 used by the spec examples. -/
def dtMay : DateTime := ⟨2023, 5, 1, 14, 30, 0⟩

/-- Record with a plain timestamp. -/
def recMay : MetadataRecord :=
  [("SourceFile", "x.jpg"), ("EXIF:DateTimeOriginal", "2023:05:01 14:30:00")]

/-- Record with a timezone-suffixed timestamp (the spec's example). -/
def recMayTz : MetadataRecord :=
  [("SourceFile", "x.jpg"), ("EXIF:DateTimeOriginal", "2023:05:01 14:30:00+02:00")]

/-- Record with an unparseable timestamp value. -/
def recNoDate : MetadataRecord :=
  [("SourceFile", "x.jpg"), ("EXIF:DateTimeOriginal", "not-a-date")]

/-- Record with a syntactically matching but calendar-invalid value. -/
def recMonth13 : MetadataRecord :=
  [("SourceFile", "x.jpg"), ("EXIF:DateTimeOriginal", "2023:13:01 14:30:00")]

/-- Record with neither timestamp field. -/
def recNone : MetadataRecord := [("SourceFile", "x.jpg")]

/-- Record lacking the `SourceFile` key but holding a valid timestamp. -/
def recNoSrc : MetadataRecord := [("EXIF:DateTimeOriginal", "2023:05:01 14:30:00")]

/-- Record with both timestamp fields, holding different values. -/
def recBoth : MetadataRecord :=
  [("SourceFile", "x.jpg"), ("QuickTime:CreationDate", "2020:01:02 03:04:05"),
   ("EXIF:DateTimeOriginal", "2021:06:07 08:09:10")]

/-- Record with a single-digit month and day (matches the code's regex,
not the fixed-width pattern). -/
def recShort : MetadataRecord :=
  [("SourceFile", "x.jpg"), ("EXIF:DateTimeOriginal", "2023:5:1 14:30:00")]

/-- Two sibling paths with the same `.jpg` extension. -/
def dupJpg1 : MPath := ⟨"d", String.toList "x.jpg"⟩

/-- Second sibling `.jpg` path. -/
def dupJpg2 : MPath := ⟨"d", String.toList "y.jpg"⟩

/-- A sibling path with a `.png` extension. -/
def dupPng : MPath := ⟨"d", String.toList "y.png"⟩

/-- The common target of `dupJpg1` and `dupJpg2` under `hexDigest0`,
`content7` and `dtMay`. -/
def tDup : MPath := ⟨"d", String.toList "2023-05-01_14-30-00_a1b2c3d4.jpg"⟩

/-- Filesystem holding byte-identical files at `dupJpg1` and `dupJpg2`. -/
def fsDup : FS :=
  fun q => if q = dupJpg1 then some [7] else if q = dupJpg2 then some [7] else none

/-- A path already carrying its canonical name for `hexDigestAB` on empty
content and timestamp `dtMay`. -/
def pNoOp : MPath := ⟨"", String.toList "2023-05-01_14-30-00_aaaaaaaa.jpg"⟩

/-- Glob stub for the collector example: pattern `b*` matches `b2.jpg`,
`b1.jpg` (in that discovery order), pattern `a*` matches `a2.jpg`,
`a1.jpg`. -/
def exampleGlob : PathStr → List PathStr :=
  fun pat =>
    if pat = String.toList "b*" then [String.toList "b2.jpg", String.toList "b1.jpg"]
    else if pat = String.toList "a*" then [String.toList "a2.jpg", String.toList "a1.jpg"]
    else []

/-! ### Helper lemmas: characters and decimal rendering -/

theorem digitChar_mem (n : Nat) : digitChar n ∈ String.toList "0123456789" := by
  have h : n % 10 < (String.toList "0123456789").length := Nat.mod_lt _ (by decide)
  rw [digitChar, List.getD_eq_getElem _ _ h]
  exact List.getElem_mem h

theorem digitChar_ne_colon (n : Nat) : digitChar n ≠ ':' := by
  have hall : ∀ c ∈ String.toList "0123456789", c ≠ ':' := by decide
  exact hall _ (digitChar_mem n)

theorem digitChar_ne_dot (n : Nat) : digitChar n ≠ '.' := by
  have hall : ∀ c ∈ String.toList "0123456789", c ≠ '.' := by decide
  exact hall _ (digitChar_mem n)

theorem map_colon_pad2 (n : Nat) :
    List.map (fun c => if c = ':' then '-' else c) (pad2 n) = pad2 n := by
  simp [pad2, digitChar_ne_colon]

theorem map_colon_pad4 (n : Nat) :
    List.map (fun c => if c = ':' then '-' else c) (pad4 n) = pad4 n := by
  simp [pad4, digitChar_ne_colon]

theorem format_eq_specStem (hexDigest : Bytes → List Char) (content : MPath → Bytes)
    (old : MPath) (dt : DateTime) :
    format_media_path hexDigest content old dt =
      old.withName (specStem dt (hexDigest (content old)) ++ lowerChars old.suffix) := by
  simp only [format_media_path, specStem, isoformatSepUnderscore, replaceColonWithDash,
    List.map_append, List.map_cons, MPath.withName]
  simp [map_colon_pad2, map_colon_pad4]

/-- C1 counterexample: for a file with capture timestamp
2023-05-01 14:30:00 and content digest beginning `a1b2c3d4`, the produced
name is `2023-05-01_14-30-00_a1b2c3d4.jpg` — the separator between date
and time is an underscore, not the claimed `T`
(`2023-05-01T14-30-00_a1b2c3d4` is not the produced stem). -/
theorem stem_separator_counterexample :
    (hexDigest0 (content7 oldJpg)).take 8 = String.toList "a1b2c3d4" ∧
    (format_media_path hexDigest0 content7 oldJpg dtMay).name =
      String.toList "2023-05-01_14-30-00_a1b2c3d4.jpg" ∧
    (format_media_path hexDigest0 content7 oldJpg dtMay).name ≠
      String.toList "2023-05-01T14-30-00_a1b2c3d4.jpg" := by
  decide

/-- C1 (amended): the target filename stem is the timestamp in
`YYYY-MM-DD_HH-MM-SS` format (underscore between date and time) followed
by `_` and the first 8 characters of the SHA-256 hex digest of the file's
bytes, with the original extension lower-cased; in particular, for capture
timestamp 2023-05-01 14:30:00 and a digest beginning `a1b2c3d4` the stem
is exactly `2023-05-01_14-30-00_a1b2c3d4`. -/
theorem stem_format_underscore (hexDigest : Bytes → List Char) (content : MPath → Bytes)
    (old : MPath)
    (h8 : (hexDigest (content old)).take 8 = String.toList "a1b2c3d4") :
    (∀ dt : DateTime, format_media_path hexDigest content old dt =
       old.withName (specStem dt (hexDigest (content old)) ++ lowerChars old.suffix)) ∧
    format_media_path hexDigest content old ⟨2023, 5, 1, 14, 30, 0⟩ =
      old.withName (String.toList "2023-05-01_14-30-00_a1b2c3d4" ++ lowerChars old.suffix) := by
  refine ⟨fun dt => format_eq_specStem .., ?_⟩
  rw [format_eq_specStem]
  have h : specStem ⟨2023, 5, 1, 14, 30, 0⟩ (hexDigest (content old)) =
      String.toList "2023-05-01_14-30-00_" ++ (hexDigest (content old)).take 8 := rfl
  rw [h, h8]
  rfl

/-- C1 witness: the amended format theorem instantiated at a concrete
file, digest function and the spec's example timestamp. -/
theorem stem_format_underscore_witness :
    (hexDigest0 (content7 oldJpg)).take 8 = String.toList "a1b2c3d4" ∧
    format_media_path hexDigest0 content7 oldJpg ⟨2023, 5, 1, 14, 30, 0⟩ =
      oldJpg.withName (String.toList "2023-05-01_14-30-00_a1b2c3d4" ++
        lowerChars oldJpg.suffix) :=
  ⟨by decide, (stem_format_underscore hexDigest0 content7 oldJpg (by decide)).2⟩

/-- C10: `get_creation_datetime` reads `metadata["SourceFile"]` before
considering any timestamp field, so every record lacking that key raises
`KeyError`, even when a valid timestamp field is present. -/
theorem sourcefile_key_required (m : MetadataRecord)
    (h : m.lookup "SourceFile" = none) :
    get_creation_datetime m = .error .keyError := by
  unfold get_creation_datetime
  rw [h]

/-- C10 witness: a record with a valid `EXIF:DateTimeOriginal` but no
`SourceFile` key still raises `KeyError`. -/
theorem sourcefile_key_required_witness :
    get_creation_datetime recNoSrc = .error .keyError :=
  sourcefile_key_required recNoSrc (by decide)

/-- C7: with `SourceFile` present, the extractor uses
`EXIF:DateTimeOriginal` when that field is present (regardless of the
video field), otherwise `QuickTime:CreationDate` when present, and returns
non-fatal `none` when neither field is present. -/
theorem field_priority_order (m : MetadataRecord) (src : String)
    (hsf : m.lookup "SourceFile" = some src) :
    (∀ v, m.lookup "EXIF:DateTimeOriginal" = some v →
       get_creation_datetime m = datetimeFromValue v) ∧
    (∀ v, m.lookup "EXIF:DateTimeOriginal" = none →
       m.lookup "QuickTime:CreationDate" = some v →
       get_creation_datetime m = datetimeFromValue v) ∧
    (m.lookup "EXIF:DateTimeOriginal" = none →
       m.lookup "QuickTime:CreationDate" = none →
       get_creation_datetime m = .ok none) := by
  refine ⟨fun v hv => ?_, fun v h1 h2 => ?_, fun h1 h2 => ?_⟩ <;>
    unfold get_creation_datetime <;>
    simp [hsf, timestampKeys, List.findSome?] <;>
    simp [*]

/-- C7 witness: a record with both fields present and differing uses the
photo field; a record with neither field yields `none` non-fatally. -/
theorem field_priority_order_witness :
    get_creation_datetime recBoth = .ok (some ⟨2021, 6, 7, 8, 9, 10⟩) ∧
    get_creation_datetime recNone = .ok none := by
  constructor
  · rw [(field_priority_order recBoth "x.jpg" (by decide)).1
      "2021:06:07 08:09:10" (by decide)]
    decide
  · exact (field_priority_order recNone "x.jpg" (by decide)).2.2 (by decide) (by decide)

/-! ### Helper lemmas: planner unfolding -/

theorem get_rename_dict_cons_none (hexDigest : Bytes → List Char)
    (content : MPath → Bytes) (p : MPath) (m : MetadataRecord)
    (rest : List (MPath × MetadataRecord))
    (h : get_creation_datetime m = .ok none) :
    get_rename_dict hexDigest content ((p, m) :: rest) =
      get_rename_dict hexDigest content rest := by
  conv_lhs => unfold get_rename_dict
  rw [h]

theorem get_rename_dict_cons_error (hexDigest : Bytes → List Char)
    (content : MPath → Bytes) (p : MPath) (m : MetadataRecord)
    (rest : List (MPath × MetadataRecord)) (e : PyError)
    (h : get_creation_datetime m = .error e) :
    get_rename_dict hexDigest content ((p, m) :: rest) = .error e := by
  conv_lhs => unfold get_rename_dict
  rw [h]

theorem get_rename_dict_cons_noop (hexDigest : Bytes → List Char)
    (content : MPath → Bytes) (p : MPath) (m : MetadataRecord)
    (rest : List (MPath × MetadataRecord)) (dt : DateTime)
    (h : get_creation_datetime m = .ok (some dt))
    (hfix : format_media_path hexDigest content p dt = p) :
    get_rename_dict hexDigest content ((p, m) :: rest) =
      get_rename_dict hexDigest content rest := by
  conv_lhs => unfold get_rename_dict
  rw [h]
  simp [hfix]

theorem get_rename_dict_cons_entry (hexDigest : Bytes → List Char)
    (content : MPath → Bytes) (p : MPath) (m : MetadataRecord)
    (rest : List (MPath × MetadataRecord)) (dt : DateTime)
    (h : get_creation_datetime m = .ok (some dt))
    (hne : p ≠ format_media_path hexDigest content p dt) :
    get_rename_dict hexDigest content ((p, m) :: rest) =
      match get_rename_dict hexDigest content rest with
      | .error e => .error e
      | .ok tail => .ok ((p, format_media_path hexDigest content p dt) :: tail) := by
  conv_lhs => unfold get_rename_dict
  rw [h]
  simp [hne]

/-- C2: timestamp-parsing failures are asymmetric. When the chosen value
does not match the pattern, extraction returns a non-fatal `none` and the
planning run continues with the remaining files; when the value matches
syntactically but fails the calendar checks of the `datetime` constructor,
the extractor raises `ValueError` and the whole planning run aborts. -/
theorem parse_failure_asymmetry (p : MPath) (m : MetadataRecord) (src v : String)
    (hsf : m.lookup "SourceFile" = some src)
    (hv : timestampKeys.findSome? (fun k => m.lookup k) = some v) :
    (parseDatetimeString v.toList = none →
       get_creation_datetime m = .ok none ∧
       ∀ hexDigest content rest,
         get_rename_dict hexDigest content ((p, m) :: rest) =
           get_rename_dict hexDigest content rest) ∧
    (∀ y mo d h mi s, parseDatetimeString v.toList = some (y, mo, d, h, mi, s) →
       datetimeValid y mo d h mi s = false →
       get_creation_datetime m = .error .valueError ∧
       ∀ hexDigest content rest,
         get_rename_dict hexDigest content ((p, m) :: rest) = .error .valueError) := by
  have hget : get_creation_datetime m = datetimeFromValue v := by
    unfold get_creation_datetime
    rw [hsf, hv]
  constructor
  · intro hparse
    have hok : get_creation_datetime m = .ok none := by
      have hparse2 : parseDatetimeString v.data = none := hparse
      rw [hget]
      simp [datetimeFromValue, hparse2]
    exact ⟨hok, fun hexDigest content rest =>
      get_rename_dict_cons_none hexDigest content p m rest hok⟩
  · intro y mo d h mi s hparse hvalid
    have herr : get_creation_datetime m = .error .valueError := by
      have hparse2 : parseDatetimeString v.data = some (y, mo, d, h, mi, s) := hparse
      rw [hget]
      simp [datetimeFromValue, hparse2, mkDatetime, hvalid]
    exact ⟨herr, fun hexDigest content rest =>
      get_rename_dict_cons_error hexDigest content p m rest _ herr⟩

/-- C2 witness: `"not-a-date"` yields non-fatal `none` (skipped, the rest
of the run unaffected), while month 13 raises `ValueError` and aborts the
planner. -/
theorem parse_failure_asymmetry_witness :
    (get_creation_datetime recNoDate = .ok none ∧
     get_rename_dict hexDigest0 content7 [(oldJpg, recNoDate)] = .ok []) ∧
    (get_creation_datetime recMonth13 = .error .valueError ∧
     get_rename_dict hexDigest0 content7 [(oldJpg, recMonth13), (dupJpg1, recMay)] =
       .error .valueError) := by
  constructor
  · have h := (parse_failure_asymmetry oldJpg recNoDate "x.jpg" "not-a-date"
      (by decide) (by decide)).1 (by decide)
    exact ⟨h.1, h.2 hexDigest0 content7 []⟩
  · have h := (parse_failure_asymmetry oldJpg recMonth13 "x.jpg" "2023:13:01 14:30:00"
      (by decide) (by decide)).2 2023 13 1 14 30 0 (by decide) (by decide)
    exact ⟨h.1, h.2 hexDigest0 content7 [(dupJpg1, recMay)]⟩

/-! ### Helper lemmas: the timestamp parser -/

theorem parseDigits1_eq_some {cs ds r : List Char}
    (h : parseDigits1 cs = some (ds, r)) :
    cs = ds ++ r ∧ ds ≠ [] ∧ ∀ c ∈ ds, c.isDigit = true := by
  unfold parseDigits1 at h
  cases htw : cs.takeWhile Char.isDigit with
  | nil => simp [htw] at h
  | cons a l =>
    rw [htw] at h
    simp only [Option.some.injEq, Prod.mk.injEq] at h
    obtain ⟨hds, hr⟩ := h
    subst hds
    subst hr
    refine ⟨?_, by simp, ?_⟩
    · rw [← htw]
      exact (List.takeWhile_append_dropWhile Char.isDigit cs).symm
    · intro c hc
      rw [← htw] at hc
      exact List.mem_takeWhile_imp hc

theorem head_cons_not_digit {c : Char} (hcd : c.isDigit = false) (l : List Char) :
    ∀ x, (c :: l).head? = some x → x.isDigit = false := by
  intro x hx
  simp only [List.head?_cons, Option.some.injEq] at hx
  rw [← hx]
  exact hcd

theorem head_nil_not_digit :
    ∀ x, ([] : List Char).head? = some x → x.isDigit = false := by
  intro x hx
  simp at hx

theorem takeWhile_digits_append {ds r : List Char}
    (hds : ∀ c ∈ ds, c.isDigit = true)
    (hr : ∀ c, r.head? = some c → c.isDigit = false) :
    (ds ++ r).takeWhile Char.isDigit = ds ∧ (ds ++ r).dropWhile Char.isDigit = r := by
  induction ds with
  | nil =>
    simp only [List.nil_append]
    cases r with
    | nil => simp
    | cons a l =>
      have ha := hr a (by simp)
      simp [List.takeWhile_cons, List.dropWhile_cons, ha]
  | cons a ds ih =>
    have ha := hds a (by simp)
    obtain ⟨h1, h2⟩ := ih (fun c hc => hds c (by simp [hc]))
    simp [List.takeWhile_cons, List.dropWhile_cons, ha, h1, h2]

theorem parseDigits1_append {ds r : List Char} (hne : ds ≠ [])
    (hds : ∀ c ∈ ds, c.isDigit = true)
    (hr : ∀ c, r.head? = some c → c.isDigit = false) :
    parseDigits1 (ds ++ r) = some (ds, r) := by
  obtain ⟨h1, h2⟩ := takeWhile_digits_append hds hr
  cases ds with
  | nil => exact absurd rfl hne
  | cons a l =>
    unfold parseDigits1
    rw [h1, h2]

theorem expectChar_cons_self (c : Char) (l : List Char) :
    expectChar c (c :: l) = some l := by
  simp [expectChar]

theorem parseDatetimeString_shape (y mo d h mi s rest : List Char)
    (hy : IsDigitGroup y) (hmo : IsDigitGroup mo) (hd2 : IsDigitGroup d)
    (hh : IsDigitGroup h) (hmi : IsDigitGroup mi) (hs : IsDigitGroup s)
    (hrest : ∀ c, rest.head? = some c → c.isDigit = false) :
    parseDatetimeString (tsShape y mo d h mi s rest) =
      if tzMatch rest then
        some (digitsToNat y, digitsToNat mo, digitsToNat d,
              digitsToNat h, digitsToNat mi, digitsToNat s)
      else none := by
  simp only [parseDatetimeString, tsShape]
  rw [parseDigits1_append hy.1 hy.2 (head_cons_not_digit (by decide) _)]
  simp only [Option.bind_eq_bind, Option.some_bind]
  rw [expectChar_cons_self]
  simp only [Option.bind_eq_bind, Option.some_bind]
  rw [parseDigits1_append hmo.1 hmo.2 (head_cons_not_digit (by decide) _)]
  simp only [Option.bind_eq_bind, Option.some_bind]
  rw [expectChar_cons_self]
  simp only [Option.bind_eq_bind, Option.some_bind]
  rw [parseDigits1_append hd2.1 hd2.2 (head_cons_not_digit (by decide) _)]
  simp only [Option.bind_eq_bind, Option.some_bind]
  rw [expectChar_cons_self]
  simp only [Option.bind_eq_bind, Option.some_bind]
  rw [parseDigits1_append hh.1 hh.2 (head_cons_not_digit (by decide) _)]
  simp only [Option.bind_eq_bind, Option.some_bind]
  rw [expectChar_cons_self]
  simp only [Option.bind_eq_bind, Option.some_bind]
  rw [parseDigits1_append hmi.1 hmi.2 (head_cons_not_digit (by decide) _)]
  simp only [Option.bind_eq_bind, Option.some_bind]
  rw [expectChar_cons_self]
  simp only [Option.bind_eq_bind, Option.some_bind]
  rw [parseDigits1_append hs.1 hs.2 hrest]
  simp only [Option.bind_eq_bind, Option.some_bind]

theorem tzMatch_offset {sign : Char} (th tm : List Char)
    (hsign : sign = '+' ∨ sign = '-')
    (hth : IsDigitGroup th) (htm : IsDigitGroup tm) :
    tzMatch (sign :: (th ++ (':' :: tm))) = true := by
  have hth2 : parseDigits1 (th ++ (':' :: tm)) = some (th, ':' :: tm) :=
    parseDigits1_append hth.1 hth.2 (head_cons_not_digit (by decide) _)
  have htm2 : parseDigits1 (tm ++ []) = some (tm, []) :=
    parseDigits1_append htm.1 htm.2 head_nil_not_digit
  rw [List.append_nil] at htm2
  rcases hsign with h | h <;> subst h <;>
    simp [tzMatch, hth2, htm2, expectChar_cons_self]

theorem expectChar_eq_some {c : Char} {cs r : List Char}
    (h : expectChar c cs = some r) : cs = c :: r := by
  cases cs with
  | nil => simp [expectChar] at h
  | cons a l =>
    simp only [expectChar] at h
    by_cases hac : a = c
    · rw [if_pos hac] at h
      simp only [Option.some.injEq] at h
      rw [hac, h]
    · rw [if_neg hac] at h
      exact absurd h (by simp)

theorem tzMatch_eq_true {cs : List Char} (h : tzMatch cs = true) :
    cs = [] ∨ ∃ (sign : Char) (th tm : List Char), (sign = '+' ∨ sign = '-') ∧
      IsDigitGroup th ∧ IsDigitGroup tm ∧ cs = sign :: (th ++ (':' :: tm)) := by
  cases cs with
  | nil => exact Or.inl rfl
  | cons sign rest =>
    right
    simp only [tzMatch, Bool.and_eq_true, Bool.or_eq_true, beq_iff_eq] at h
    obtain ⟨hsign, hrest⟩ := h
    cases h2 : parseDigits1 rest with
    | none => rw [h2] at hrest; simp at hrest
    | some pr =>
      obtain ⟨th, r2⟩ := pr
      rw [h2] at hrest
      dsimp only at hrest
      cases h3 : expectChar ':' r2 with
      | none => rw [h3] at hrest; simp at hrest
      | some r3 =>
        rw [h3] at hrest
        dsimp only at hrest
        cases h4 : parseDigits1 r3 with
        | none => rw [h4] at hrest; simp at hrest
        | some pr2 =>
          obtain ⟨tm, r4⟩ := pr2
          rw [h4] at hrest
          dsimp only at hrest
          simp only [List.isEmpty_iff] at hrest
          obtain ⟨e2, hthne, hthd⟩ := parseDigits1_eq_some h2
          obtain ⟨e4, htmne, htmd⟩ := parseDigits1_eq_some h4
          have e3 := expectChar_eq_some h3
          refine ⟨sign, th, tm, hsign, ⟨hthne, hthd⟩, ⟨htmne, htmd⟩, ?_⟩
          rw [e2, e3, e4, hrest]
          simp

theorem parse_some_loose {cs : List Char} {v6 : Nat × Nat × Nat × Nat × Nat × Nat}
    (h : parseDatetimeString cs = some v6) : LooseTimestampMatch cs := by
  unfold parseDatetimeString at h
  cases h1 : parseDigits1 cs with
  | none =>
    rw [h1] at h
    simp only [Option.bind_eq_bind, Option.none_bind] at h
    exact Option.noConfusion h
  | some pr1 =>
  obtain ⟨y, r1⟩ := pr1
  rw [h1] at h
  simp only [Option.bind_eq_bind, Option.some_bind] at h
  cases h2 : expectChar ':' r1 with
  | none =>
    rw [h2] at h
    simp only [Option.bind_eq_bind, Option.none_bind] at h
    exact Option.noConfusion h
  | some r2 =>
  rw [h2] at h
  simp only [Option.bind_eq_bind, Option.some_bind] at h
  cases h3 : parseDigits1 r2 with
  | none =>
    rw [h3] at h
    simp only [Option.bind_eq_bind, Option.none_bind] at h
    exact Option.noConfusion h
  | some pr3 =>
  obtain ⟨mo, r3⟩ := pr3
  rw [h3] at h
  simp only [Option.bind_eq_bind, Option.some_bind] at h
  cases h4 : expectChar ':' r3 with
  | none =>
    rw [h4] at h
    simp only [Option.bind_eq_bind, Option.none_bind] at h
    exact Option.noConfusion h
  | some r4 =>
  rw [h4] at h
  simp only [Option.bind_eq_bind, Option.some_bind] at h
  cases h5 : parseDigits1 r4 with
  | none =>
    rw [h5] at h
    simp only [Option.bind_eq_bind, Option.none_bind] at h
    exact Option.noConfusion h
  | some pr5 =>
  obtain ⟨d, r5⟩ := pr5
  rw [h5] at h
  simp only [Option.bind_eq_bind, Option.some_bind] at h
  cases h6 : expectChar ' ' r5 with
  | none =>
    rw [h6] at h
    simp only [Option.bind_eq_bind, Option.none_bind] at h
    exact Option.noConfusion h
  | some r6 =>
  rw [h6] at h
  simp only [Option.bind_eq_bind, Option.some_bind] at h
  cases h7 : parseDigits1 r6 with
  | none =>
    rw [h7] at h
    simp only [Option.bind_eq_bind, Option.none_bind] at h
    exact Option.noConfusion h
  | some pr7 =>
  obtain ⟨hh, r7⟩ := pr7
  rw [h7] at h
  simp only [Option.bind_eq_bind, Option.some_bind] at h
  cases h8 : expectChar ':' r7 with
  | none =>
    rw [h8] at h
    simp only [Option.bind_eq_bind, Option.none_bind] at h
    exact Option.noConfusion h
  | some r8 =>
  rw [h8] at h
  simp only [Option.bind_eq_bind, Option.some_bind] at h
  cases h9 : parseDigits1 r8 with
  | none =>
    rw [h9] at h
    simp only [Option.bind_eq_bind, Option.none_bind] at h
    exact Option.noConfusion h
  | some pr9 =>
  obtain ⟨mi, r9⟩ := pr9
  rw [h9] at h
  simp only [Option.bind_eq_bind, Option.some_bind] at h
  cases h10 : expectChar ':' r9 with
  | none =>
    rw [h10] at h
    simp only [Option.bind_eq_bind, Option.none_bind] at h
    exact Option.noConfusion h
  | some r10 =>
  rw [h10] at h
  simp only [Option.bind_eq_bind, Option.some_bind] at h
  cases h11 : parseDigits1 r10 with
  | none =>
    rw [h11] at h
    simp only [Option.bind_eq_bind, Option.none_bind] at h
    exact Option.noConfusion h
  | some pr11 =>
  obtain ⟨s, r11⟩ := pr11
  rw [h11] at h
  simp only [Option.bind_eq_bind, Option.some_bind] at h
  by_cases htz : tzMatch r11 = true
  · obtain ⟨ey, hyne, hyd⟩ := parseDigits1_eq_some h1
    obtain ⟨emo, hmone, hmod⟩ := parseDigits1_eq_some h3
    obtain ⟨ed, hdne, hdd⟩ := parseDigits1_eq_some h5
    obtain ⟨eh, hhne, hhd⟩ := parseDigits1_eq_some h7
    obtain ⟨emi, hmine, hmid⟩ := parseDigits1_eq_some h9
    obtain ⟨es, hsne, hsd⟩ := parseDigits1_eq_some h11
    have e2 := expectChar_eq_some h2
    have e4 := expectChar_eq_some h4
    have e6 := expectChar_eq_some h6
    have e8 := expectChar_eq_some h8
    have e10 := expectChar_eq_some h10
    have hshape : cs = tsShape y mo d hh mi s r11 := by
      rw [ey, e2, emo, e4, ed, e6, eh, e8, emi, e10, es]
      rfl
    rcases tzMatch_eq_true htz with hnil | ⟨sign, th, tm, hsg, hthg, htmg, hr11⟩
    · exact ⟨y, mo, d, hh, mi, s, ⟨hyne, hyd⟩, ⟨hmone, hmod⟩, ⟨hdne, hdd⟩,
        ⟨hhne, hhd⟩, ⟨hmine, hmid⟩, ⟨hsne, hsd⟩, Or.inl (by rw [hshape, hnil])⟩
    · exact ⟨y, mo, d, hh, mi, s, ⟨hyne, hyd⟩, ⟨hmone, hmod⟩, ⟨hdne, hdd⟩,
        ⟨hhne, hhd⟩, ⟨hmine, hmid⟩, ⟨hsne, hsd⟩,
        Or.inr ⟨sign, th, tm, hsg, hthg, htmg, by rw [hshape, hr11]⟩⟩
  · rw [if_neg htz] at h
    simp at h

/-- C6: a timezone offset in the chosen timestamp value is parsed but
discarded: the extraction result is exactly the naive datetime constructed
from the six digit groups as written, with no timezone conversion. -/
theorem timezone_offset_discarded (m : MetadataRecord) (src v : String)
    (y mo d h mi s th tm : List Char) (sign : Char)
    (hsf : m.lookup "SourceFile" = some src)
    (hv : timestampKeys.findSome? (fun k => m.lookup k) = some v)
    (hshape : v.toList = tsShape y mo d h mi s (sign :: (th ++ (':' :: tm))))
    (hy : IsDigitGroup y) (hmo : IsDigitGroup mo) (hd2 : IsDigitGroup d)
    (hh : IsDigitGroup h) (hmi : IsDigitGroup mi) (hs : IsDigitGroup s)
    (hth : IsDigitGroup th) (htm : IsDigitGroup tm)
    (hsign : sign = '+' ∨ sign = '-') :
    get_creation_datetime m =
      (mkDatetime (digitsToNat y) (digitsToNat mo) (digitsToNat d)
        (digitsToNat h) (digitsToNat mi) (digitsToNat s)).map some := by
  have hget : get_creation_datetime m = datetimeFromValue v := by
    unfold get_creation_datetime
    rw [hsf, hv]
  have hsignd : sign.isDigit = false := by
    rcases hsign with h1 | h1 <;> subst h1 <;> decide
  have hparse : parseDatetimeString v.toList =
      some (digitsToNat y, digitsToNat mo, digitsToNat d,
            digitsToNat h, digitsToNat mi, digitsToNat s) := by
    rw [hshape, parseDatetimeString_shape y mo d h mi s _ hy hmo hd2 hh hmi hs
        (head_cons_not_digit hsignd _), tzMatch_offset th tm hsign hth htm]
    rfl
  rw [hget]
  unfold datetimeFromValue
  rw [hparse]
  dsimp only
  cases hmk : mkDatetime (digitsToNat y) (digitsToNat mo) (digitsToNat d)
      (digitsToNat h) (digitsToNat mi) (digitsToNat s) with
  | error e => rfl
  | ok dt => rfl

/-- C6 witness: the spec's example
`EXIF:DateTimeOriginal = "2023:05:01 14:30:00+02:00"` extracts to the
naive datetime 2023-05-01 14:30:00. -/
theorem timezone_offset_discarded_witness :
    get_creation_datetime recMayTz = .ok (some ⟨2023, 5, 1, 14, 30, 0⟩) := by
  rw [timezone_offset_discarded recMayTz "x.jpg" "2023:05:01 14:30:00+02:00"
      (String.toList "2023") (String.toList "05") (String.toList "01")
      (String.toList "14") (String.toList "30") (String.toList "00")
      (String.toList "02") (String.toList "00") '+'
      (by decide) (by decide) (by decide)
      ⟨by decide, by decide⟩ ⟨by decide, by decide⟩ ⟨by decide, by decide⟩
      ⟨by decide, by decide⟩ ⟨by decide, by decide⟩ ⟨by decide, by decide⟩
      ⟨by decide, by decide⟩ ⟨by decide, by decide⟩ (Or.inl rfl)]
  decide

theorem loose_parse_isSome {cs : List Char} (h : LooseTimestampMatch cs) :
    (parseDatetimeString cs).isSome = true := by
  obtain ⟨y, mo, d, hh, mi, s, hy, hmo, hd2, hhh, hmi, hs, hcase⟩ := h
  rcases hcase with hbase | ⟨sign, th, tm, hsg, hth, htm, htz⟩
  · rw [hbase, parseDatetimeString_shape y mo d hh mi s [] hy hmo hd2 hhh hmi hs
      head_nil_not_digit]
    rfl
  · have hsignd : sign.isDigit = false := by
      rcases hsg with h1 | h1 <;> subst h1 <;> decide
    rw [htz, parseDatetimeString_shape y mo d hh mi s _ hy hmo hd2 hhh hmi hs
      (head_cons_not_digit hsignd _), tzMatch_offset th tm hsg hth htm]
    rfl

/-- C5 counterexample: the value `2023:5:1 14:30:00` does not match the
fixed-width pattern `YYYY:MM:DD HH:MM:SS` (its month and day groups have a
single digit), yet extraction yields a CaptureTimestamp for it, refuting
the claim's "only if it fully matches" under fixed widths. -/
theorem fixed_width_pattern_counterexample :
    get_creation_datetime recShort = .ok (some ⟨2023, 5, 1, 14, 30, 0⟩) ∧
    specTimestampPattern (String.toList "2023:5:1 14:30:00") = false := by
  decide

/-- C5 (amended): extraction yields a CaptureTimestamp only if the chosen
value fully matches `<digits>:<digits>:<digits> <digits>:<digits>:<digits>`
optionally followed by `±<digits>:<digits>`, where each group is one or
more ASCII digits (group widths are not enforced; no Unicode digit
variants); every value that does not fully match yields a non-fatal
`none`. -/
theorem timestamp_digit_groups (m : MetadataRecord) (src v : String)
    (hsf : m.lookup "SourceFile" = some src)
    (hv : timestampKeys.findSome? (fun k => m.lookup k) = some v) :
    (∀ dt, get_creation_datetime m = .ok (some dt) → LooseTimestampMatch v.toList) ∧
    (¬ LooseTimestampMatch v.toList → get_creation_datetime m = .ok none) := by
  have hget : get_creation_datetime m = datetimeFromValue v := by
    unfold get_creation_datetime
    rw [hsf, hv]
  constructor
  · intro dt hdt
    cases hp : parseDatetimeString v.toList with
    | none =>
      rw [hget] at hdt
      unfold datetimeFromValue at hdt
      rw [hp] at hdt
      exact absurd hdt (by simp)
    | some v6 => exact parse_some_loose hp
  · intro hnl
    cases hp : parseDatetimeString v.toList with
    | none =>
      rw [hget]
      unfold datetimeFromValue
      rw [hp]
    | some v6 => exact absurd (parse_some_loose hp) hnl

/-- C5 witness: `"not-a-date"` does not match the digit-group pattern and
extraction returns the non-fatal `none`. -/
theorem timestamp_digit_groups_witness :
    get_creation_datetime recNoDate = .ok none :=
  (timestamp_digit_groups recNoDate "x.jpg" "not-a-date" (by decide) (by decide)).2
    (fun hl => by
      have hsm := loose_parse_isSome hl
      rw [show parseDatetimeString (String.toList "not-a-date") = none from by decide] at hsm
      simp at hsm)

/-! ### Helper lemmas: lowercase conversion, `rfind` and suffixes -/

theorem char_toNat_ofNat {n : Nat} (h : n < 55296) : (Char.ofNat n).toNat = n := by
  have hv : n.isValidChar := Or.inl h
  rw [Char.ofNat, dif_pos hv]
  simp [Char.ofNatAux, Char.toNat, UInt32.toNat, BitVec.toNat_ofNatLt]

theorem toLower_toNat_of_upper {c : Char} (h : c.toNat ≥ 65 ∧ c.toNat ≤ 90) :
    (Char.toLower c).toNat = c.toNat + 32 := by
  show (if c.toNat ≥ 65 ∧ c.toNat ≤ 90 then Char.ofNat (c.toNat + 32) else c).toNat =
    c.toNat + 32
  rw [if_pos h]
  exact char_toNat_ofNat (by omega)

theorem toLower_eq_self_of_not_upper {c : Char} (h : ¬(c.toNat ≥ 65 ∧ c.toNat ≤ 90)) :
    Char.toLower c = c := by
  show (if c.toNat ≥ 65 ∧ c.toNat ≤ 90 then Char.ofNat (c.toNat + 32) else c) = c
  rw [if_neg h]

theorem toLower_idem (c : Char) : Char.toLower (Char.toLower c) = Char.toLower c := by
  by_cases h : c.toNat ≥ 65 ∧ c.toNat ≤ 90
  · have h1 : (Char.toLower c).toNat = c.toNat + 32 := toLower_toNat_of_upper h
    exact toLower_eq_self_of_not_upper (by omega)
  · rw [toLower_eq_self_of_not_upper h, toLower_eq_self_of_not_upper h]

theorem toLower_ne_dot {c : Char} (h : c ≠ '.') : Char.toLower c ≠ '.' := by
  by_cases hc : c.toNat ≥ 65 ∧ c.toNat ≤ 90
  · intro heq
    have h1 : (Char.toLower c).toNat = c.toNat + 32 := toLower_toNat_of_upper hc
    rw [heq] at h1
    have h2 : ('.' : Char).toNat = 46 := rfl
    omega
  · rw [toLower_eq_self_of_not_upper hc]
    exact h

theorem rfindChar_none_of_not_mem {c : Char} {cs : List Char} (h : c ∉ cs) :
    rfindChar c cs = none := by
  induction cs with
  | nil => rfl
  | cons x xs ih =>
    have hx : c ∉ xs := fun hm => h (List.mem_cons_of_mem _ hm)
    have hxc : x ≠ c := fun he => h (he ▸ List.mem_cons_self _ _)
    simp only [rfindChar, ih hx, if_neg hxc]

theorem not_mem_of_rfindChar_none {c : Char} {cs : List Char}
    (h : rfindChar c cs = none) : c ∉ cs := by
  induction cs with
  | nil => simp
  | cons x xs ih =>
    simp only [rfindChar] at h
    cases hx : rfindChar c xs with
    | some i => rw [hx] at h; exact absurd h (by simp)
    | none =>
      rw [hx] at h
      by_cases hxc : x = c
      · rw [if_pos hxc] at h
        exact absurd h (by simp)
      · intro hmem
        rcases List.mem_cons.mp hmem with he | hm
        · exact hxc he.symm
        · exact (ih hx) hm

theorem rfindChar_eq_some_decomp {c : Char} :
    ∀ {cs : List Char} {i : Nat}, rfindChar c cs = some i →
    ∃ pre post, cs = pre ++ c :: post ∧ pre.length = i ∧ c ∉ post := by
  intro cs
  induction cs with
  | nil => intro i h; simp [rfindChar] at h
  | cons x xs ih =>
    intro i h
    simp only [rfindChar] at h
    cases hx : rfindChar c xs with
    | some j =>
      rw [hx] at h
      simp only [Option.some.injEq] at h
      obtain ⟨pre, post, he, hl, hnp⟩ := ih hx
      exact ⟨x :: pre, post, by rw [he]; rfl, by simp [hl, ← h], hnp⟩
    | none =>
      rw [hx] at h
      by_cases hxc : x = c
      · rw [if_pos hxc] at h
        simp only [Option.some.injEq] at h
        exact ⟨[], xs, by simp [hxc], by simp [← h], not_mem_of_rfindChar_none hx⟩
      · rw [if_neg hxc] at h
        exact absurd h (by simp)

theorem rfindChar_append_last {c : Char} {post : List Char} (hnp : c ∉ post) :
    ∀ pre : List Char, rfindChar c (pre ++ c :: post) = some pre.length := by
  intro pre
  induction pre with
  | nil =>
    simp only [List.nil_append, rfindChar, rfindChar_none_of_not_mem hnp, if_pos rfl]
    rfl
  | cons x pre ih =>
    show rfindChar c (x :: (pre ++ c :: post)) = some (pre.length + 1)
    unfold rfindChar
    rw [ih]

theorem suffixOf_shape (name : List Char) :
    suffixOf name = [] ∨
    ∃ t, suffixOf name = '.' :: t ∧ t ≠ [] ∧ '.' ∉ t := by
  cases hr : rfindChar '.' name with
  | none => left; simp [suffixOf, hr]
  | some i =>
    by_cases hcond : 0 < i ∧ i < name.length - 1
    · right
      obtain ⟨pre, post, he, hl, hnp⟩ := rfindChar_eq_some_decomp hr
      refine ⟨post, ?_, ?_, hnp⟩
      · simp only [suffixOf, hr]
        rw [if_pos hcond, he, ← hl]
        exact List.drop_left pre ('.' :: post)
      · intro hpost
        have h2 := hcond.2
        rw [he, hpost] at h2
        simp [List.length_append] at h2
        omega
    · left
      simp only [suffixOf, hr, if_neg hcond]

theorem suffixOf_built (pre suf : List Char)
    (hpre : ∀ c ∈ pre, c ≠ '.') (hlen : 0 < pre.length)
    (hsuf : suf = [] ∨ ∃ t, suf = '.' :: t ∧ t ≠ [] ∧ '.' ∉ t) :
    suffixOf (pre ++ suf) = suf := by
  rcases hsuf with hnil | ⟨t, hcons, htne, htd⟩
  · subst hnil
    rw [List.append_nil]
    have hnm : rfindChar '.' pre = none :=
      rfindChar_none_of_not_mem (fun hm => hpre _ hm rfl)
    simp [suffixOf, hnm]
  · subst hcons
    have hr : rfindChar '.' (pre ++ '.' :: t) = some pre.length :=
      rfindChar_append_last htd pre
    have htlen : 0 < t.length := List.length_pos.mpr htne
    have hlsum : (pre ++ '.' :: t).length = pre.length + (t.length + 1) := by
      simp [List.length_append]
    have hlt : pre.length < (pre ++ '.' :: t).length - 1 := by omega
    have hcond : 0 < pre.length ∧ pre.length < (pre ++ '.' :: t).length - 1 := ⟨hlen, hlt⟩
    simp only [suffixOf, hr]
    rw [if_pos hcond]
    exact List.drop_left pre ('.' :: t)

theorem pad2_subset {n : Nat} {c : Char} (h : c ∈ pad2 n) :
    c ∈ String.toList "0123456789" := by
  simp only [pad2, List.mem_cons, List.not_mem_nil, or_false] at h
  rcases h with h | h <;> (subst h; exact digitChar_mem _)

theorem pad4_subset {n : Nat} {c : Char} (h : c ∈ pad4 n) :
    c ∈ String.toList "0123456789" := by
  simp only [pad4, List.mem_cons, List.not_mem_nil, or_false] at h
  rcases h with h | h | h | h <;> (subst h; exact digitChar_mem _)

theorem iso_chars {dt : DateTime} {c : Char} (h : c ∈ isoformatSepUnderscore dt) :
    c ∈ String.toList "0123456789" ∨ c = '-' ∨ c = '_' ∨ c = ':' := by
  simp only [isoformatSepUnderscore, List.mem_append, List.mem_cons] at h
  rcases h with ((((h | h | h) | h | h) | h | h) | h | h) | h | h
  · exact Or.inl (pad4_subset h)
  · exact Or.inr (Or.inl h)
  · exact Or.inl (pad2_subset h)
  · exact Or.inr (Or.inl h)
  · exact Or.inl (pad2_subset h)
  · exact Or.inr (Or.inr (Or.inl h))
  · exact Or.inl (pad2_subset h)
  · exact Or.inr (Or.inr (Or.inr h))
  · exact Or.inl (pad2_subset h)
  · exact Or.inr (Or.inr (Or.inr h))
  · exact Or.inl (pad2_subset h)

theorem stem_no_dot {dt : DateTime} {c : Char}
    (h : c ∈ replaceColonWithDash (isoformatSepUnderscore dt)) : c ≠ '.' := by
  simp only [replaceColonWithDash, List.mem_map] at h
  obtain ⟨c0, hc0, hmap⟩ := h
  have hdig : ∀ x ∈ String.toList "0123456789", x ≠ ':' ∧ x ≠ '.' := by decide
  rcases iso_chars hc0 with hd | h1 | h1 | h1
  · rw [← hmap, if_neg (hdig c0 hd).1]
    exact (hdig c0 hd).2
  · subst h1
    rw [← hmap]
    decide
  · subst h1
    rw [← hmap]
    decide
  · subst h1
    rw [← hmap]
    decide

theorem take8_no_dot {ds : List Char} (hh : IsHexDigest ds) {c : Char}
    (h : c ∈ ds.take 8) : c ≠ '.' := by
  intro he
  subst he
  exact absurd (hh.2 '.' (List.take_subset 8 ds h)) (by decide)

theorem lowerChars_idem (cs : List Char) :
    lowerChars (lowerChars cs) = lowerChars cs := by
  simp only [lowerChars, List.map_map, Function.comp]
  exact List.map_congr_left fun a _ => toLower_idem a

theorem lowerChars_shape (suf : List Char)
    (hs : suf = [] ∨ ∃ t, suf = '.' :: t ∧ t ≠ [] ∧ '.' ∉ t) :
    lowerChars suf = [] ∨
    ∃ t2, lowerChars suf = '.' :: t2 ∧ t2 ≠ [] ∧ '.' ∉ t2 := by
  rcases hs with h | ⟨t, hc, htne, htd⟩
  · left; rw [h]; rfl
  · right
    refine ⟨lowerChars t, ?_, ?_, ?_⟩
    · rw [hc]; rfl
    · simp only [lowerChars, ne_eq, List.map_eq_nil_iff]
      exact htne
    · intro hmem
      simp only [lowerChars, List.mem_map] at hmem
      obtain ⟨c0, hc0, hl⟩ := hmem
      by_cases hcd : c0 = '.'
      · exact htd (hcd ▸ hc0)
      · exact toLower_ne_dot hcd hl

theorem format_fix_core (A H8 L : List Char)
    (hpre : ∀ x ∈ (A ++ '_' :: H8), x ≠ '.')
    (hshape : L = [] ∨ ∃ t, L = '.' :: t ∧ t ≠ [] ∧ '.' ∉ t) :
    suffixOf (A ++ ('_' :: (H8 ++ L))) = L := by
  have hassoc : A ++ ('_' :: (H8 ++ L)) = (A ++ '_' :: H8) ++ L := by
    simp [List.append_assoc]
  rw [hassoc]
  refine suffixOf_built (A ++ '_' :: H8) L hpre ?_ hshape
  simp only [List.length_append, List.length_cons]
  omega

/-- Applying `format_media_path` to a path it itself produced (with content
preserved) is the identity: the target name is a fixed point. -/
theorem format_media_path_fixpoint (hexDigest : Bytes → List Char)
    (hh : ∀ b, IsHexDigest (hexDigest b)) (c c2 : MPath → Bytes)
    (p : MPath) (dt : DateTime)
    (hc : c2 (format_media_path hexDigest c p dt) = c p) :
    format_media_path hexDigest c2 (format_media_path hexDigest c p dt) dt =
      format_media_path hexDigest c p dt := by
  have hpre : ∀ x ∈ (replaceColonWithDash (isoformatSepUnderscore dt) ++
      '_' :: (hexDigest (c p)).take 8), x ≠ '.' := by
    intro x hx
    rcases List.mem_append.mp hx with hxa | hxh
    · exact stem_no_dot hxa
    · rcases List.mem_cons.mp hxh with he | hxx
      · rw [he]; decide
      · exact take8_no_dot (hh (c p)) hxx
  have hsuf : (format_media_path hexDigest c p dt).suffix = lowerChars p.suffix := by
    show suffixOf (replaceColonWithDash (isoformatSepUnderscore dt) ++
      ('_' :: ((hexDigest (c p)).take 8 ++ lowerChars p.suffix))) = lowerChars p.suffix
    exact format_fix_core _ _ _ hpre (lowerChars_shape p.suffix (suffixOf_shape p.name))
  show (format_media_path hexDigest c p dt).withName
      (replaceColonWithDash (isoformatSepUnderscore dt) ++
        ('_' :: ((hexDigest (c2 (format_media_path hexDigest c p dt))).take 8 ++
          lowerChars ((format_media_path hexDigest c p dt).suffix)))) =
      format_media_path hexDigest c p dt
  rw [hc, hsuf, lowerChars_idem]
  rfl

/-- C4: a file whose computed target path equals its current path gets no
plan entry; consequently, running the planner on files it has already
renamed (same timestamps, contents moved with the files, a wellformed hex
digest function) yields an empty plan. -/
theorem planner_skip_noop_and_idempotent :
    (∀ (hexDigest : Bytes → List Char) (content : MPath → Bytes) (p : MPath)
       (m : MetadataRecord) (rest : List (MPath × MetadataRecord)) (dt : DateTime),
       get_creation_datetime m = .ok (some dt) →
       format_media_path hexDigest content p dt = p →
       get_rename_dict hexDigest content ((p, m) :: rest) =
         get_rename_dict hexDigest content rest) ∧
    (∀ (hexDigest : Bytes → List Char) (c c2 : MPath → Bytes)
       (pairs : List (MPath × MetadataRecord)),
       (∀ b, IsHexDigest (hexDigest b)) →
       (∀ pr ∈ pairs, ∃ (p : MPath) (dt : DateTime),
          get_creation_datetime pr.2 = .ok (some dt) ∧
          pr.1 = format_media_path hexDigest c p dt ∧
          c2 pr.1 = c p) →
       get_rename_dict hexDigest c2 pairs = .ok []) := by
  constructor
  · intro hexDigest content p m rest dt h hfix
    exact get_rename_dict_cons_noop hexDigest content p m rest dt h hfix
  · intro hexDigest c c2 pairs hh hmem
    induction pairs with
    | nil => rfl
    | cons pr rest ih =>
      obtain ⟨p, dt, hex, hfmt, hcc⟩ := hmem pr (List.mem_cons_self _ _)
      obtain ⟨q, m⟩ := pr
      dsimp only at hex hfmt hcc
      rw [hfmt] at hcc
      have hfix : format_media_path hexDigest c2 q dt = q := by
        rw [hfmt]
        exact format_media_path_fixpoint hexDigest hh c c2 p dt hcc
      rw [get_rename_dict_cons_noop hexDigest c2 q m rest dt hex hfix]
      exact ih (fun pr2 h2 => hmem pr2 (List.mem_cons_of_mem _ h2))

/-- C4 witness: planning over the single file produced by a previous
planner run (same record, unchanged content) yields the empty plan. -/
theorem planner_skip_noop_and_idempotent_witness :
    get_rename_dict hexDigest0 content7
      [(format_media_path hexDigest0 content7 dupJpg1 dtMay, recMay)] = .ok [] :=
  planner_skip_noop_and_idempotent.2 hexDigest0 content7 content7 _
    (fun _ => show IsHexDigest (String.toList
      "a1b2c3d4e5f60718293a4b5c6d7e8f90a1b2c3d4e5f60718293a4b5c6d7e8f90") from
      ⟨by decide, by decide⟩)
    (fun pr hpr => by
      simp only [List.mem_singleton] at hpr
      subst hpr
      exact ⟨dupJpg1, dtMay, by decide, rfl, rfl⟩)

/-- C3 counterexample: two distinct byte-identical files with identical
capture timestamps in the same directory but different extensions
(`x.jpg` and `y.png`) are mapped to two different target paths, refuting
"the planner maps both to the same target path" as universally stated. -/
theorem duplicate_mixed_ext_counterexample :
    get_rename_dict hexDigest0 content7 [(dupJpg1, recMay), (dupPng, recMay)] =
      .ok [(dupJpg1, ⟨"d", String.toList "2023-05-01_14-30-00_a1b2c3d4.jpg"⟩),
           (dupPng, ⟨"d", String.toList "2023-05-01_14-30-00_a1b2c3d4.png"⟩)] ∧
    format_media_path hexDigest0 content7 dupJpg1 dtMay ≠
      format_media_path hexDigest0 content7 dupPng dtMay := by
  decide

/-- C3 (amended): for two distinct source files with byte-identical
content, identical capture timestamps, the same directory and the same
lower-cased extension — neither already bearing the target name, with the
target not yet on disk — the planner maps both to the same target path,
and executing the plan moves the first to the target, deletes the second
source, leaves exactly one file (with the shared bytes) at the target, and
touches nothing else. -/
theorem duplicate_content_single_target
    (hexDigest : Bytes → List Char) (c : MPath → Bytes) (fs : FS)
    (p1 p2 t : MPath) (m1 m2 : MetadataRecord) (dt : DateTime) (b : Bytes)
    (hne : p1 ≠ p2) (hdir : p1.dir = p2.dir)
    (hsuf : lowerChars p1.suffix = lowerChars p2.suffix)
    (h1 : get_creation_datetime m1 = .ok (some dt))
    (h2 : get_creation_datetime m2 = .ok (some dt))
    (hc1 : c p1 = b) (hc2 : c p2 = b)
    (ht : t = format_media_path hexDigest c p1 dt)
    (ht1 : t ≠ p1) (ht2 : t ≠ p2)
    (hfs1 : fs p1 = some b) (hfs2 : fs p2 = some b) (hfst : fs t = none) :
    format_media_path hexDigest c p2 dt = t ∧
    get_rename_dict hexDigest c [(p1, m1), (p2, m2)] = .ok [(p1, t), (p2, t)] ∧
    rename [(p1, t), (p2, t)] fs t = some b ∧
    rename [(p1, t), (p2, t)] fs p1 = none ∧
    rename [(p1, t), (p2, t)] fs p2 = none ∧
    (∀ q, q ≠ p1 → q ≠ p2 → q ≠ t → rename [(p1, t), (p2, t)] fs q = fs q) := by
  have htgt : format_media_path hexDigest c p2 dt = format_media_path hexDigest c p1 dt := by
    simp only [format_media_path, MPath.withName]
    rw [hc1, hc2, hdir, ← hsuf]
  have htgt2 : format_media_path hexDigest c p2 dt = t := by rw [htgt, ← ht]
  have hplan : get_rename_dict hexDigest c [(p1, m1), (p2, m2)] = .ok [(p1, t), (p2, t)] := by
    rw [get_rename_dict_cons_entry hexDigest c p1 m1 _ dt h1
        (by rw [← ht]; intro he; exact ht1 he.symm)]
    rw [get_rename_dict_cons_entry hexDigest c p2 m2 [] dt h2
        (by rw [htgt2]; intro he; exact ht2 he.symm)]
    rw [← ht, htgt2]
    rfl
  have hAt : (FS.moveFile fs p1 t) t = some b := by
    show (if t = t then fs p1 else if t = p1 then none else fs t) = some b
    rw [if_pos rfl, hfs1]
  have hstep1 : rename [(p1, t), (p2, t)] fs = FS.unlink (FS.moveFile fs p1 t) p2 := by
    show rename [(p2, t)] (if (fs t).isSome then fs.unlink p1 else fs.moveFile p1 t) =
      FS.unlink (FS.moveFile fs p1 t) p2
    rw [hfst]
    show rename [] (if ((FS.moveFile fs p1 t) t).isSome
        then (FS.moveFile fs p1 t).unlink p2
        else (FS.moveFile fs p1 t).moveFile p2 t) = FS.unlink (FS.moveFile fs p1 t) p2
    rw [hAt]
    rfl
  refine ⟨htgt2, hplan, ?_, ?_, ?_, ?_⟩
  · rw [hstep1]
    show (if t = p2 then none else (FS.moveFile fs p1 t) t) = some b
    rw [if_neg ht2, hAt]
  · rw [hstep1]
    show (if p1 = p2 then none else (FS.moveFile fs p1 t) p1) = none
    rw [if_neg hne]
    show (if p1 = t then fs p1 else if p1 = p1 then none else fs p1) = none
    rw [if_neg (fun he => ht1 he.symm), if_pos rfl]
  · rw [hstep1]
    show (if p2 = p2 then none else (FS.moveFile fs p1 t) p2) = none
    rw [if_pos rfl]
  · intro q hq1 hq2 hqt
    rw [hstep1]
    show (if q = p2 then none else (FS.moveFile fs p1 t) q) = fs q
    rw [if_neg hq2]
    show (if q = t then fs p1 else if q = p1 then none else fs q) = fs q
    rw [if_neg hqt, if_neg hq1]

/-- C3 witness: two byte-identical sibling `.jpg` files with the same
timestamp collapse onto one target file. -/
theorem duplicate_content_single_target_witness :
    get_rename_dict hexDigest0 content7 [(dupJpg1, recMay), (dupJpg2, recMay)] =
      .ok [(dupJpg1, tDup), (dupJpg2, tDup)] ∧
    rename [(dupJpg1, tDup), (dupJpg2, tDup)] fsDup tDup = some [7] ∧
    rename [(dupJpg1, tDup), (dupJpg2, tDup)] fsDup dupJpg1 = none ∧
    rename [(dupJpg1, tDup), (dupJpg2, tDup)] fsDup dupJpg2 = none := by
  have h := duplicate_content_single_target hexDigest0 content7 fsDup
    dupJpg1 dupJpg2 tDup recMay recMay dtMay [7]
    (by decide) rfl (by decide) (by decide) (by decide) rfl rfl
    (by decide) (by decide) (by decide) (by decide) (by decide) (by decide)
  exact ⟨h.2.1, h.2.2.1, h.2.2.2.1, h.2.2.2.2.1⟩

/-- C8 counterexample: a file whose computed target equals its current
path is not renamed (the plan omits it), yet its bytes are read: changing
only that file's content (from empty to `[1]`) changes the planner's
output, so content is read for a file that is not actually renamed. -/
theorem lazy_hash_counterexample :
    get_rename_dict hexDigestAB (fun _ => ([] : Bytes)) [(pNoOp, recMay)] = .ok [] ∧
    get_rename_dict hexDigestAB (fun _ => ([1] : Bytes)) [(pNoOp, recMay)] =
      .ok [(pNoOp, ⟨"", String.toList "2023-05-01_14-30-00_bbbbbbbb.jpg"⟩)] := by
  decide

/-- C8 (amended): the planner reads a file's bytes only for files whose
metadata yields a capture timestamp: a file with no timestamp is excluded
from the plan, and the planner's output is unchanged under any
modification of the contents of timestamp-less files. -/
theorem content_read_only_for_timestamped :
    (∀ (hexDigest : Bytes → List Char) (content : MPath → Bytes) (p : MPath)
       (m : MetadataRecord) (rest : List (MPath × MetadataRecord)),
       get_creation_datetime m = .ok none →
       get_rename_dict hexDigest content ((p, m) :: rest) =
         get_rename_dict hexDigest content rest) ∧
    (∀ (hexDigest : Bytes → List Char) (c1 c2 : MPath → Bytes)
       (pairs : List (MPath × MetadataRecord)),
       (∀ pr ∈ pairs, ∀ dt, get_creation_datetime pr.2 = .ok (some dt) →
          c1 pr.1 = c2 pr.1) →
       get_rename_dict hexDigest c1 pairs = get_rename_dict hexDigest c2 pairs) := by
  constructor
  · exact fun hexDigest content p m rest h =>
      get_rename_dict_cons_none hexDigest content p m rest h
  · intro hexDigest c1 c2 pairs hmem
    induction pairs with
    | nil => rfl
    | cons pr rest ih =>
      obtain ⟨p, m⟩ := pr
      have ih2 := ih (fun pr2 h2 dt hdt => hmem pr2 (List.mem_cons_of_mem _ h2) dt hdt)
      cases hex : get_creation_datetime m with
      | error e =>
        rw [get_rename_dict_cons_error _ c1 p m rest e hex,
            get_rename_dict_cons_error _ c2 p m rest e hex]
      | ok o =>
        cases o with
        | none =>
          rw [get_rename_dict_cons_none _ c1 p m rest hex,
              get_rename_dict_cons_none _ c2 p m rest hex, ih2]
        | some dt =>
          have hcc : c1 p = c2 p := hmem (p, m) (List.mem_cons_self _ _) dt hex
          have hfmt : format_media_path hexDigest c1 p dt =
              format_media_path hexDigest c2 p dt := by
            simp only [format_media_path, hcc]
          by_cases hft : p = format_media_path hexDigest c1 p dt
          · rw [get_rename_dict_cons_noop _ c1 p m rest dt hex hft.symm,
                get_rename_dict_cons_noop _ c2 p m rest dt hex
                  (by rw [← hfmt]; exact hft.symm), ih2]
          · rw [get_rename_dict_cons_entry _ c1 p m rest dt hex hft,
                get_rename_dict_cons_entry _ c2 p m rest dt hex
                  (by rw [← hfmt]; exact hft),
                ih2, hfmt]

/-- C8 witness: for a file whose record has no timestamp field, the
planner's result is independent of that file's bytes (its content is never
read), instantiated at two content maps differing only there. -/
theorem content_read_only_for_timestamped_witness :
    get_rename_dict hexDigestAB (fun _ => ([] : Bytes)) [(oldJpg, recNone)] =
      get_rename_dict hexDigestAB (fun _ => ([9] : Bytes)) [(oldJpg, recNone)] :=
  content_read_only_for_timestamped.2 hexDigestAB _ _ _
    (fun pr hpr dt hdt => by
      simp only [List.mem_singleton] at hpr
      subst hpr
      rw [show get_creation_datetime (oldJpg, recNone).2 = .ok none from by decide] at hdt
      simp at hdt)

/-! ### Helper lemmas: the collector -/

theorem collect_aux (globFn : PathStr → List PathStr) :
    ∀ (patterns : List PathStr) (init : List PathStr),
      patterns.foldl
        (fun acc pat =>
          acc ++ List.insertionSort (· ≤ ·) ((globFn pat).filter isMediaPath))
        init =
      init ++ patterns.foldl
        (fun acc pat =>
          acc ++ List.insertionSort (· ≤ ·) ((globFn pat).filter isMediaPath))
        [] := by
  intro patterns
  induction patterns with
  | nil => intro init; simp
  | cons pat ps ih =>
    intro init
    simp only [List.foldl_cons]
    rw [ih (init ++ _), ih (([] : List PathStr) ++ _)]
    simp [List.append_assoc]

theorem collect_cons (globFn : PathStr → List PathStr) (pat : PathStr)
    (pats : List PathStr) :
    collect_media_paths globFn (pat :: pats) =
      List.insertionSort (· ≤ ·) ((globFn pat).filter isMediaPath) ++
      collect_media_paths globFn pats := by
  unfold collect_media_paths
  simp only [List.foldl_cons, List.nil_append]
  exact collect_aux globFn pats _

theorem collect_count (globFn : PathStr → List PathStr) (x : PathStr) :
    ∀ pats : List PathStr,
      (collect_media_paths globFn pats).count x =
        (pats.map (fun pat => ((globFn pat).filter isMediaPath).count x)).sum := by
  intro pats
  induction pats with
  | nil => rfl
  | cons pat ps ih =>
    rw [collect_cons]
    simp only [List.count_append, ih, List.map_cons, List.sum_cons]
    congr 1
    exact (List.perm_insertionSort (· ≤ ·)
      (List.filter isMediaPath (globFn pat))).countP_eq (· == x)

/-- C9: each pattern's media matches (extensions `.jpg`/`.mov`/`.png`,
case-insensitive) are sorted lexicographically on their own and the
per-pattern blocks are concatenated in the patterns' input order without
global re-sorting; duplicate matches across patterns are kept (occurrence
counts add up); for patterns `b*`, `a*` matching `b2,b1` and `a2,a1` the
collected order is `b1,b2,a1,a2`. -/
theorem collector_per_pattern_order :
    (∀ (globFn : PathStr → List PathStr) (pat : PathStr) (pats : List PathStr),
       collect_media_paths globFn (pat :: pats) =
         List.insertionSort (· ≤ ·) ((globFn pat).filter isMediaPath) ++
         collect_media_paths globFn pats) ∧
    (∀ (globFn : PathStr → List PathStr) (pat : PathStr),
       List.Sorted (· ≤ ·)
         (List.insertionSort (· ≤ ·) ((globFn pat).filter isMediaPath))) ∧
    (∀ (globFn : PathStr → List PathStr) (pats : List PathStr) (x : PathStr),
       (collect_media_paths globFn pats).count x =
         (pats.map (fun pat => ((globFn pat).filter isMediaPath).count x)).sum) ∧
    isMediaPath (String.toList "c.JPG") = true ∧
    isMediaPath (String.toList "c.txt") = false ∧
    collect_media_paths exampleGlob [String.toList "b*", String.toList "a*"] =
      [String.toList "b1.jpg", String.toList "b2.jpg",
       String.toList "a1.jpg", String.toList "a2.jpg"] := by
  refine ⟨collect_cons, ?_, fun globFn pats x => collect_count globFn x pats,
    by decide, by decide, by decide⟩
  intro globFn pat
  exact List.sorted_insertionSort _ _

end PhotoOrganizer
